import Mathlib

/-!
Verification development for the routine-diffing core of `alembic_utils`
(`src/alembic_utils/pg_function.py`).

Python strings are embedded as `List Char` (`Str`). Pure methods of
`PGFunction` are translated directly; database-facing methods are given an
explicit catalog-state model (`DB`): a catalog row holds the `nspname`
column used by the SQL filter and the synthesized `create_statement`
column fed to `from_sql`. Python `assert` failures and `AttributeError`s
are modelled by `Except.error`.

The `parse` library call in `PGFunction.from_sql` uses the template
`create{:s}or{:s}replace{:s}function{:s}{schema}.{signature}{:s}returns{:s}{definition}`
with `case_sensitive=False`. The library compiles this to the anchored,
DOTALL, case-insensitive regular expression
`^create\s+or\s+replace\s+function\s+(.+?)\.(.+?)\s+returns\s+(.+?)$`
run on the stripped input. The matcher below implements exactly that
regex's leftmost-backtracking semantics on whitespace-stripped input:
* each `\s+` that is immediately followed by a keyword literal is a
  maximal whitespace run (shortening the run would place a whitespace
  character where a letter is required, so backtracking cannot help);
* the `\s+` preceding the `schema` group is tried greedily, longest run
  first, with genuine backtracking (`tryWs`), because the following
  group `(.+?)` can itself match whitespace;
* the non-greedy groups are tried shortest first (`matchSchema`,
  `matchSigDef`), advancing on inner failure;
* the two `\s+` inside `trySplit` are maximal runs: the first is
  followed by the literal `returns`; the second is followed by `(.+?)$`,
  and since the input to `from_sql` is stripped, the string never ends
  in whitespace, so the final remainder after a maximal run is nonempty
  exactly when any backtracked choice would match, and the captures agree.
-/

namespace AlembicUtils

/-- Python strings are modelled as lists of characters. -/
abbrev Str := List Char

/-- ASCII whitespace, as recognised by Python's `str.split`, `str.strip`
and the regex class `\s` on ASCII input. -/
def isWS (c : Char) : Bool :=
  c = ' ' || c = '\t' || c = '\n' || c = '\r' || c = '\x0b' || c = '\x0c'

/-- ASCII lowercasing of one character, as Python `str.lower` and the
`re.IGNORECASE` flag act on ASCII letters (codepoints 65-90 shift to
97-122); this is exactly core's `Char.toLower`. -/
def toLowerC (c : Char) : Char := c.toLower

/-- Python `str.lower`. -/
def pyLower (cs : Str) : Str := cs.map toLowerC

/-- Drop leading whitespace (left half of Python `str.strip`). -/
def pyStripLeft (cs : Str) : Str := cs.dropWhile isWS

/-- Drop trailing whitespace (right half of Python `str.strip`). -/
def pyStripRight (cs : Str) : Str := (cs.reverse.dropWhile isWS).reverse

/-- Python `str.strip()`: drop leading and trailing whitespace. -/
def pyStrip (cs : Str) : Str := pyStripRight (pyStripLeft cs)

/-- Accumulator pass of Python `str.split()` (split on whitespace runs,
no empty tokens); `acc` is the reversed token currently being read. -/
def splitAux : Str → Str → List Str
  | acc, [] => if acc.isEmpty then [] else [acc.reverse]
  | acc, c :: rest =>
      if isWS c then
        if acc.isEmpty then splitAux [] rest else acc.reverse :: splitAux [] rest
      else splitAux (c :: acc) rest

/-- Python `str.split()` with no arguments. -/
def pySplit (cs : Str) : List Str := splitAux [] cs

/-- Python `sep.join(tokens)`. -/
def pyJoin (sep : Str) : List Str → Str
  | [] => []
  | [t] => t
  | t :: ts => t ++ sep ++ pyJoin sep ts

/-- PGFunction._normalize_whitespace with the default
`base_whitespace=" "`: `" ".join(text.split())`. -/
def normalize_whitespace (text : Str) : Str := pyJoin [' '] (pySplit text)

/-- A PostgreSQL function that can be versioned and replaced
(class `PGFunction`): `schema`, `signature` and `definition` strings. -/
structure PGFunction where
  schema : Str
  signature : Str
  definition : Str
deriving DecidableEq, Repr

/-- Case-insensitive literal keyword matching: strip `kw` from the front
of `cs` comparing characters through `toLowerC`, as the case-insensitive
regex does with a literal. -/
def stripPrefixCI : Str → Str → Option Str
  | [], cs => some cs
  | _ :: _, [] => none
  | k :: kw, c :: cs => if toLowerC k = toLowerC c then stripPrefixCI kw cs else none

/-- The keyword `returns` of the template. -/
def returnsKW : Str := "returns".data

/-- Attempt to match `\s+returns\s+(.+?)$` at the current position
(a candidate end of the `signature` group): a maximal whitespace run,
the case-insensitive literal `returns`, a second maximal whitespace run,
and a nonempty remainder, which is the `definition` capture. -/
def trySplit (cs : Str) : Option Str :=
  match cs with
  | [] => none
  | c :: rest =>
      if isWS c then
        match stripPrefixCI returnsKW ((c :: rest).dropWhile isWS) with
        | none => none
        | some r2 =>
            match r2 with
            | [] => none
            | d :: r3 =>
                if isWS d then
                  match (d :: r3).dropWhile isWS with
                  | [] => none
                  | e :: r4 => some (e :: r4)
                else none
      else none

/-- Non-greedy scan for the `signature` group: `acc` holds the reversed
characters committed to the signature so far; at each position with a
nonempty signature, try to finish via `trySplit`, else grow the group. -/
def matchSigDef : Str → Str → Option (Str × Str)
  | _, [] => none
  | acc, c :: rest =>
      match (if acc.isEmpty then none else trySplit (c :: rest)) with
      | some d => some (acc.reverse, d)
      | none => matchSigDef (c :: acc) rest

/-- Non-greedy scan for the `schema` group: at each literal dot preceded
by a nonempty schema candidate, try the rest of the pattern, else grow
the group past the dot. -/
def matchSchema : Str → Str → Option (Str × Str × Str)
  | _, [] => none
  | acc, c :: rest =>
      if c = '.' ∧ ¬acc.isEmpty then
        match matchSigDef [] rest with
        | some (sig, d) => some (acc.reverse, sig, d)
        | none => matchSchema (c :: acc) rest
      else matchSchema (c :: acc) rest

/-- Greedy `\s+` before the `schema` group with backtracking: try run
lengths from the maximal run down to one. -/
def tryWs : Nat → Str → Option (Str × Str × Str)
  | 0, _ => none
  | n + 1, cs =>
      match matchSchema [] (cs.drop (n + 1)) with
      | some r => some r
      | none => tryWs n cs

/-- The keyword `create` of the template. -/
def createKW : Str := "create".data

/-- The keyword `or` of the template. -/
def orKW : Str := "or".data

/-- The keyword `replace` of the template. -/
def replaceKW : Str := "replace".data

/-- The keyword `function` of the template. -/
def functionKW : Str := "function".data

/-- Require at least one whitespace character and consume the maximal
run (a `\s+` whose follower is a keyword literal). -/
def ws1 : Str → Option Str
  | [] => none
  | c :: rest => if isWS c then some ((c :: rest).dropWhile isWS) else none

/-- The full anchored template match of `PGFunction.from_sql` on an
already-stripped string, returning the `schema`, `signature` and
`definition` captures. -/
def parseCORF (cs : Str) : Option (Str × Str × Str) :=
  (stripPrefixCI createKW cs).bind fun r1 =>
  (ws1 r1).bind fun r2 =>
  (stripPrefixCI orKW r2).bind fun r3 =>
  (ws1 r3).bind fun r4 =>
  (stripPrefixCI replaceKW r4).bind fun r5 =>
  (ws1 r5).bind fun r6 =>
  (stripPrefixCI functionKW r6).bind fun r7 =>
  tryWs ((r7.takeWhile isWS).length) r7

/-- The string `"returns "` prepended to the parsed remainder
(`definition = "returns " + result["definition"]` in `from_sql`). -/
def returnsSp : Str := "returns ".data

/-- PGFunction.from_sql: parse a blob of sql against the template; on a
match build the PGFunction with the `returns `-prefixed definition, on a
failed match return no result. -/
def from_sql (sql : Str) : Option PGFunction :=
  match parseCORF (pyStrip sql) with
  | some (sch, sig, d) => some ⟨sch, sig, returnsSp ++ d⟩
  | none => none

/-- PGFunction.is_equal_definition: whitespace-normalized equality of the
two definitions. -/
def is_equal_definition (self other : PGFunction) : Bool :=
  normalize_whitespace self.definition = normalize_whitespace other.definition

/-- PGFunction.is_equal_signature: whitespace-normalized equality of the
two signatures, and verbatim equality of the schemas. -/
def is_equal_signature (self other : PGFunction) : Bool :=
  (normalize_whitespace self.signature = normalize_whitespace other.signature)
    && self.schema = other.schema

/-- Keep a character of the prefix before the first parenthesis
(`signature.split("(")[0]`). -/
def notParen (c : Char) : Bool := ¬ c = '('

/-- PGFunction.to_variable_name: `schema.lower().strip()`, an underscore,
`signature.split("(")[0].strip().lower()`, an underscore, and the md5 hex
digest of the lowercased whitespace-normalized signature. The md5 call is
an external library function; it is passed in as the parameter `md5hex`.
No theorem below depends on its values. -/
def to_variable_name (md5hex : Str → Str) (self : PGFunction) : Str :=
  pyStrip (pyLower self.schema)
    ++ '_' :: pyLower (pyStrip (self.signature.takeWhile notParen))
    ++ '_' :: md5hex (normalize_whitespace (pyLower self.signature))

/-- PGFunction.to_sql_statement_create. -/
def to_sql_statement_create (self : PGFunction) : Str :=
  "CREATE FUNCTION ".data ++ self.schema ++ '.' :: self.signature ++ ' ' :: self.definition

/-- PGFunction.to_sql_statement_drop. -/
def to_sql_statement_drop (self : PGFunction) : Str :=
  "DROP FUNCTION ".data ++ self.schema ++ '.' :: self.signature

/-- PGFunction.to_sql_statement_create_or_replace. -/
def to_sql_statement_create_or_replace (self : PGFunction) : Str :=
  "CREATE OR REPLACE FUNCTION ".data ++ self.schema ++ '.' :: self.signature
    ++ ' ' :: self.definition

/-! ## Catalog model and database-facing methods -/

/-- One row of the routine-catalog query in `get_db_functions`: the
`function_schema` column (`n.nspname`, used by the `like` filter) and the
`create_statement` column (`x[3]`, fed to `from_sql`). The remaining
selected columns are never read by the code. -/
structure Row where
  nspname : Str
  create_statement : Str
deriving DecidableEq, Repr

/-- The visible database state: the set of existing schemas (for
`create schema` / `drop schema` DDL) and the routine-catalog rows. -/
structure DB where
  schemas : List Str
  rows : List Row
deriving DecidableEq, Repr

/-- SQL `LIKE` pattern matching (`%` matches any sequence, `_` any single
character, all else literally), used by the `nspname like '{schema}'`
filter of `get_db_functions`. -/
def sqlLike : Str → Str → Bool
  | [], s => s.isEmpty
  | p :: ps, s =>
      if p = '%' then (s.tails).any (fun t => sqlLike ps t)
      else
        match s with
        | [] => false
        | c :: s1 => (if p = '_' then true else p = c) && sqlLike ps s1

/-- Collect a list of options, failing on the first `none` (the shape of
the `assert func is not None` loop in `get_db_functions`). -/
def seqOpt {α : Type} : List (Option α) → Option (List α)
  | [] => some []
  | none :: _ => none
  | some a :: rest => (seqOpt rest).map (fun l => a :: l)

/-- The message of the modelled Python `assert` failure. -/
def assertionErrorMsg : String := "AssertionError"

/-- The message of the modelled Python `AttributeError` on `None`. -/
def noneTypeErrorMsg : String := "AttributeError: NoneType"

/-- PGFunction.get_db_functions: filter the catalog rows by
`nspname like schema`, parse every row's `create_statement` with
`from_sql`, and assert that every row parsed; the default for `schema`
is the wildcard `"%"`. -/
def get_db_functions (db : DB) (schema : Str) : Except String (List PGFunction) :=
  match seqOpt ((db.rows.filter (fun r => sqlLike schema r.nspname)).map
      (fun r => from_sql r.create_statement)) with
  | some fs => Except.ok fs
  | none => Except.error assertionErrorMsg

/-- PGFunction.get_db_definition: fetch the functions of `self.schema`
and return the first one whose signature matches, or `none` when there
are no matches. -/
def get_db_definition (self : PGFunction) (db : DB) : Except String (Option PGFunction) :=
  (get_db_functions db self.schema).map fun db_functions =>
    (db_functions.filter (fun x => is_equal_signature self x)).head?

/-! ## Operations -/

/-- The four operation classes registered on the host framework; the
diff engine returns one of these classes (not an instance). -/
inductive MigrationOpKind where
  | CreateFunctionOp
  | DropFunctionOp
  | ReplaceFunctionOp
  | RevertFunctionOp
deriving DecidableEq, Repr

/-- A constructed reversible operation: one of the four operation
classes wrapping its `target` PGFunction. -/
inductive ReversibleOp where
  | CreateFunctionOp (target : PGFunction)
  | DropFunctionOp (target : PGFunction)
  | ReplaceFunctionOp (target : PGFunction)
  | RevertFunctionOp (target : PGFunction)
deriving DecidableEq, Repr

/-- The target wrapped by an operation. -/
def ReversibleOp.target : ReversibleOp → PGFunction
  | .CreateFunctionOp t => t
  | .DropFunctionOp t => t
  | .ReplaceFunctionOp t => t
  | .RevertFunctionOp t => t

/-- Instantiating an operation class at a target (`maybe_op(function)`
in `register_functions`). -/
def MigrationOpKind.apply : MigrationOpKind → PGFunction → ReversibleOp
  | .CreateFunctionOp, t => .CreateFunctionOp t
  | .DropFunctionOp, t => .DropFunctionOp t
  | .ReplaceFunctionOp, t => .ReplaceFunctionOp t
  | .RevertFunctionOp, t => .RevertFunctionOp t

/-- The `reverse` methods of the operation classes:
`CreateFunctionOp.reverse` builds a `DropFunctionOp` on the same target,
`DropFunctionOp.reverse` a `CreateFunctionOp`, and
`ReplaceFunctionOp.reverse` a `RevertFunctionOp`. Modelled from the
spec: `RevertFunctionOp` overrides nothing and the base class
`ReversibleOp` lives outside `src/`; per the spec, "Revert has no
defined reverse", modelled as `none`. -/
def ReversibleOp.reverse : ReversibleOp → Option ReversibleOp
  | .CreateFunctionOp t => some (.DropFunctionOp t)
  | .DropFunctionOp t => some (.CreateFunctionOp t)
  | .ReplaceFunctionOp t => some (.RevertFunctionOp t)
  | .RevertFunctionOp _ => none

/-! ## Diff engine -/

/-- The fixed scratch-schema name used by `get_required_migration_op`. -/
def scratchSchema : Str := "alembic_autogen".data

/-- The trash-schema copy of the desired function:
`cls("alembic_autogen", self.signature, self.definition)`. -/
def adjusted_target (self : PGFunction) : PGFunction :=
  ⟨scratchSchema, self.signature, self.definition⟩

/-- Effect of `create schema if not exists s;` on the catalog model. -/
def execCreateSchemaIfNotExists (db : DB) (s : Str) : DB :=
  if s ∈ db.schemas then db else ⟨db.schemas ++ [s], db.rows⟩

/-- Effect of `CREATE OR REPLACE FUNCTION f.schema.f.signature
f.definition` on the catalog model: the database stores the function and
its catalog row re-synthesizes a creation statement `storedStmt f`
(modelling `pg_get_functiondef`, whose re-serialized text the database
controls; it is a parameter of the diff engine model). The replace case
is not modelled: the engine only ever creates inside the scratch schema,
and the theorems below assume the scratch schema starts empty. -/
def execCreateOrReplaceFunction (storedStmt : PGFunction → Str) (db : DB)
    (f : PGFunction) : DB :=
  ⟨db.schemas, db.rows ++ [⟨f.schema, storedStmt f⟩]⟩

/-- Effect of `drop schema alembic_autogen cascade;`: the schema and all
rows it contains are removed. -/
def execDropSchemaCascade (db : DB) (s : Str) : DB :=
  ⟨db.schemas.filter (fun t => ¬ t = s), db.rows.filter (fun r => ¬ r.nspname = s)⟩

/-- PGFunction.get_required_migration_op: look up the live version of
`self`; when absent return the `CreateFunctionOp` class. Otherwise
create the scratch schema, create the adjusted target inside it, read
back its database version, compare definitions, drop the scratch schema
cascade, and return `ReplaceFunctionOp` or no operation. A `None`
temporary version would raise in Python
(`db_live.is_equal_definition(None)` dereferences `None.definition`)
before the scratch schema is dropped; that is the `Except.error` path.
The `assert needs_update is not None` of the source always holds (the
value is a `bool`) and has no model; `needs_update = not is_equal` and
`if needs_update then Replace else none` are inlined as
`if is_equal then none else Replace`. Returns the final database state
together with the chosen operation class; the error paths abandon the
state, and the only claims about state concern successful runs. -/
def get_required_migration_op (storedStmt : PGFunction → Str) (self : PGFunction)
    (db : DB) : Except String (DB × Option MigrationOpKind) :=
  match get_db_definition self db with
  | Except.error e => Except.error e
  | Except.ok none => Except.ok (db, some MigrationOpKind.CreateFunctionOp)
  | Except.ok (some db_live) =>
      match get_db_definition (adjusted_target self)
          (execCreateOrReplaceFunction storedStmt
            (execCreateSchemaIfNotExists db (adjusted_target self).schema)
            (adjusted_target self)) with
      | Except.error e => Except.error e
      | Except.ok none => Except.error noneTypeErrorMsg
      | Except.ok (some temporary_db_version) =>
          Except.ok (execDropSchemaCascade
              (execCreateOrReplaceFunction storedStmt
                (execCreateSchemaIfNotExists db (adjusted_target self).schema)
                (adjusted_target self))
              scratchSchema,
            if is_equal_definition db_live temporary_db_version then none
            else some MigrationOpKind.ReplaceFunctionOp)

/-! ## Render -/

/-- Substring test (`small` occurs contiguously in `big`): whether
`small` is a literal prefix of `big`. -/
def leadsWith : Str → Str → Bool
  | [], _ => true
  | _ :: _, [] => false
  | a :: as1, b :: bs => a = b && leadsWith as1 bs

/-- Substring test: whether `small` occurs contiguously in `big`. -/
def hasSub (small : Str) : Str → Bool
  | [] => small.isEmpty
  | b :: rest => leadsWith small (b :: rest) || hasSub small rest

/-- render_create_function: the rendered migration-script snippet for a
`CreateFunctionOp` (the f-string of the source, verbatim). -/
def render_create_function (md5hex : Str → Str) (target : PGFunction) : Str :=
  to_variable_name md5hex target
    ++ " = PGFunction(\n        schema=\"".data ++ target.schema
    ++ "\",\n        signature=\"".data ++ target.signature
    ++ "\",\n        definition=\"\"\"".data ++ target.definition
    ++ "\"\"\"\n    )\n\nop.create_function(".data ++ to_variable_name md5hex target
    ++ ")\n    ".data

/-- render_drop_function: the rendered snippet for a `DropFunctionOp`;
note the fixed `definition="# Not Used"` field of the source. -/
def render_drop_function (md5hex : Str → Str) (target : PGFunction) : Str :=
  to_variable_name md5hex target
    ++ " = PGFunction(\n        schema=\"".data ++ target.schema
    ++ "\",\n        signature=\"".data ++ target.signature
    ++ "\",\n        definition=\"# Not Used\"\n    )\n\nop.drop_function(".data
    ++ to_variable_name md5hex target
    ++ ")\n    ".data

/-- render_replace_function: the rendered snippet for a
`ReplaceFunctionOp`. -/
def render_replace_function (md5hex : Str → Str) (target : PGFunction) : Str :=
  to_variable_name md5hex target
    ++ " = PGFunction(\n        schema=\"".data ++ target.schema
    ++ "\",\n        signature=\"".data ++ target.signature
    ++ "\",\n        definition=\"\"\"".data ++ target.definition
    ++ "\"\"\"\n    )\nop.replace_function(".data ++ to_variable_name md5hex target
    ++ ")\n    ".data

/-- The f-string body of `render_revert_function`: the fields come from
the live database version `db_target`, the variable name from the
operation's own `target`. -/
def revert_snippet (md5hex : Str → Str) (target db_target : PGFunction) : Str :=
  to_variable_name md5hex target
    ++ " = PGFunction(\n        schema=\"".data ++ db_target.schema
    ++ "\",\n        signature=\"".data ++ db_target.signature
    ++ "\",\n        definition=\"\"\"".data ++ db_target.definition
    ++ "\"\"\"\n    )\nop.replace_function(".data ++ to_variable_name md5hex target
    ++ ")\n    ".data

/-- render_revert_function: collects the function definition currently
live in the database (`op.target.get_db_definition(connection)`) and
renders its fields, with the variable name still derived from
`op.target`; a missing live definition raises in Python. -/
def render_revert_function (md5hex : Str → Str) (db : DB) (target : PGFunction) :
    Except String Str :=
  (get_db_definition target db).bind fun db_target? =>
    match db_target? with
    | none => Except.error noneTypeErrorMsg
    | some db_target => Except.ok (revert_snippet md5hex target db_target)

/-! ## Definitions taken from the specification's wording

These definitions follow the words of the specification and of the
claims, for comparison against the code-derived definitions above. -/

/-- Collapse every maximal run of whitespace to a single space, leaving
everything else (including a collapsed leading or trailing run) in
place; `emitted` records whether the current run already produced its
space. Wording of the claims: "equal after every maximal run of
whitespace is collapsed to a single space". -/
def collapseAux : Bool → Str → Str
  | _, [] => []
  | emitted, c :: rest =>
      if isWS c then
        if emitted then collapseAux true rest else ' ' :: collapseAux true rest
      else c :: collapseAux false rest

/-- Collapse every maximal whitespace run of a string to one space. -/
def collapseRuns (cs : Str) : Str := collapseAux false cs

/-- Occurrence of `w` delimited by whitespace on both sides, the literal
reading of "contains the whitespace-delimited word w". -/
def hasDelimWord (w : Str) (cs : Str) : Bool :=
  cs.tails.any fun t =>
    match t with
    | [] => false
    | c :: rest =>
        isWS c && leadsWith w rest
          && (match rest.drop w.length with
              | [] => false
              | d :: _ => isWS d)

/-! ## Signature conditions for the amended round-trip claim -/

/-- Does `cs` start with the case-insensitive word `returns` followed by
whitespace or the end of the string? -/
def startsCIReturnsDelim (cs : Str) : Bool :=
  match stripPrefixCI returnsKW cs with
  | none => false
  | some [] => true
  | some (c :: _) => isWS c

/-- Does the string contain a whitespace character followed (after more
whitespace) by the case-insensitive word `returns` that is itself
followed by whitespace or the end of the string? Such a signature would
make the template's `\s+returns\s+` match inside or at the end of the
signature group. -/
def badSig : Str → Bool
  | [] => false
  | c :: rest => (isWS c && startsCIReturnsDelim (rest.dropWhile isWS)) || badSig rest

/-- Head character satisfies `p` (vacuously true for the empty list). -/
def headSat (p : Char → Bool) : Str → Prop
  | [] => True
  | c :: _ => p c = true

/-- Last character satisfies `p` (vacuously true for the empty list). -/
def lastSat (p : Char → Bool) (cs : Str) : Prop := headSat p cs.reverse

/-! ## Decidable equality for `Except` results -/

instance {ε α : Type} [DecidableEq ε] [DecidableEq α] : DecidableEq (Except ε α) := fun a b =>
  match a, b with
  | .ok x, .ok y =>
      if h : x = y then isTrue (by rw [h]) else isFalse (by intro hc; cases hc; exact h rfl)
  | .ok _, .error _ => isFalse (by intro hc; cases hc)
  | .error _, .ok _ => isFalse (by intro hc; cases hc)
  | .error e, .error f =>
      if h : e = f then isTrue (by rw [h]) else isFalse (by intro hc; cases hc; exact h rfl)

/-! ## Concrete instances used by witnesses and counterexamples -/

/-- A stand-in for the md5 hex digest parameter in concrete instances
(no theorem depends on the digest values). -/
def exMd5 : Str → Str := fun s => s

/-- A concrete function target. -/
def exTarget : PGFunction := ⟨"s".data, "f()".data, "returns 42".data⟩

/-- A catalog holding exactly `exTarget` live in schema `s`. -/
def exDb : DB :=
  ⟨["s".data], [⟨"s".data, "CREATE OR REPLACE FUNCTION s.f() returns 42".data⟩]⟩

/-- The revert snippet rendered against `exDb` (the payload of the
`Except.ok` result). -/
def exRevertStr : Str :=
  match render_revert_function exMd5 exDb exTarget with
  | Except.ok s => s
  | Except.error _ => []

/-- Two functions whose schemas differ only in letter case. -/
def exSchemaUpper : PGFunction := ⟨"Public".data, "foo()".data, "returns 1".data⟩

/-- Lower-case-schema companion of `exSchemaUpper`. -/
def exSchemaLower : PGFunction := ⟨"public".data, "foo()".data, "returns 2".data⟩

/-- Definitions equal after `" ".join(split())` but not after collapsing
whitespace runs only. -/
def exDefPlain : PGFunction := ⟨"s".data, "f()".data, "x".data⟩

/-- Companion of `exDefPlain` with one trailing space in the definition. -/
def exDefTrail : PGFunction := ⟨"s".data, "f()".data, "x ".data⟩

/-- A function satisfying the round-trip claim's stated hypotheses whose
signature ends in whitespace. -/
def exSigTrail : PGFunction := ⟨"s".data, "f() ".data, "returns x".data⟩

/-- A desired function living in schema `public`. -/
def exDesired : PGFunction := ⟨"public".data, "f()".data, "returns 1".data⟩

/-- A desired function like `exDesired` with a different body. -/
def exDesired2 : PGFunction := ⟨"public".data, "f()".data, "returns 2".data⟩

/-- A catalog holding the live version of `exDesired` in `public`. -/
def exDbLive : DB :=
  ⟨["public".data], [⟨"public".data, "CREATE OR REPLACE FUNCTION public.f() returns 1".data⟩]⟩

/-- A catalog with one row whose creation statement does not parse. -/
def exDbBadRow : DB := ⟨["public".data], [⟨"public".data, "not a function".data⟩]⟩

/-- The model of `pg_get_functiondef` used in concrete runs: the
database stores the statement it was given. -/
def exStored : PGFunction → Str := to_sql_statement_create_or_replace

/-- An input whose stripped form is a `CREATE FUNCTION` statement
without `OR REPLACE`. -/
def exCreateNoReplace : Str := "CREATE FUNCTION foo.bar() RETURNS int AS 1".data

/-- The remainder of `exCreateNoReplace` after the `CREATE FUNCTION `
prefix. -/
def exCreateNoReplaceTail : Str := "foo.bar() RETURNS int AS 1".data

/-! # Theorems -/

theorem charToNat_inj {c d : Char} : c.toNat = d.toNat ↔ c = d := by
  constructor
  · intro h
    apply Char.eq_of_val_eq
    apply UInt32.eq_of_toBitVec_eq
    exact BitVec.eq_of_toNat_eq h
  · intro h
    rw [h]

theorem toNat_ofNat_valid (n : Nat) (h : n.isValidChar) : (Char.ofNat n).toNat = n := by
  simp [Char.ofNat, h, Char.ofNatAux, Char.toNat, UInt32.toNat]

theorem toLowerC_eq_of_not_letter {c d : Char}
    (hd1 : ¬(65 ≤ d.toNat ∧ d.toNat ≤ 90)) (hd2 : ¬(97 ≤ d.toNat ∧ d.toNat ≤ 122)) :
    toLowerC c = d ↔ c = d := by
  show (if c.toNat ≥ 65 ∧ c.toNat ≤ 90 then Char.ofNat (c.toNat + 32) else c) = d ↔ c = d
  by_cases h : c.toNat ≥ 65 ∧ c.toNat ≤ 90
  · rw [if_pos h]
    constructor
    · intro heq
      exfalso
      have hv : (c.toNat + 32).isValidChar := by
        left
        omega
      have h3 := congrArg Char.toNat heq
      rw [toNat_ofNat_valid _ hv] at h3
      omega
    · intro heq
      exfalso
      rw [← charToNat_inj] at heq
      omega
  · rw [if_neg h]

theorem decide_toLowerC_eq (c d : Char)
    (hd1 : ¬(65 ≤ d.toNat ∧ d.toNat ≤ 90)) (hd2 : ¬(97 ≤ d.toNat ∧ d.toNat ≤ 122)) :
    decide (toLowerC c = d) = decide (c = d) := by
  rw [decide_eq_decide]
  exact toLowerC_eq_of_not_letter hd1 hd2

theorem notParen_toLowerC (c : Char) : notParen (toLowerC c) = notParen c := by
  unfold notParen
  rw [decide_eq_decide]
  exact not_congr (toLowerC_eq_of_not_letter (by decide) (by decide))

theorem isWS_toLowerC (c : Char) : isWS (toLowerC c) = isWS c := by
  unfold isWS
  rw [decide_toLowerC_eq c ' ' (by decide) (by decide),
    decide_toLowerC_eq c '\t' (by decide) (by decide),
    decide_toLowerC_eq c '\n' (by decide) (by decide),
    decide_toLowerC_eq c '\r' (by decide) (by decide),
    decide_toLowerC_eq c '\x0b' (by decide) (by decide),
    decide_toLowerC_eq c '\x0c' (by decide) (by decide)]

theorem pyLower_pyStrip (t : Str) : pyLower (pyStrip t) = pyStrip (pyLower t) := by
  have hws : (fun c => isWS (toLowerC c)) = isWS := funext isWS_toLowerC
  unfold pyStrip pyStripLeft pyStripRight pyLower
  rw [List.dropWhile_map]
  rw [show (isWS ∘ toLowerC) = isWS from funext isWS_toLowerC]
  rw [← List.map_reverse, List.dropWhile_map]
  rw [show (isWS ∘ toLowerC) = isWS from funext isWS_toLowerC]
  rw [← List.map_reverse]

theorem takeWhile_notParen_pyLower (s : Str) :
    (pyLower s).takeWhile notParen = pyLower (s.takeWhile notParen) := by
  unfold pyLower
  rw [List.takeWhile_map]
  rw [show (notParen ∘ toLowerC) = notParen from funext notParen_toLowerC]

/-- C3: the reverse of Create(t) is Drop(t), of Drop(t) is Create(t)
(so double reversal restores the original variant and target), the
reverse of Replace(t) is Revert(t), Revert defines no reverse, and every
reverse preserves the wrapped target. -/
theorem reversible_op_reverse_spec (t : PGFunction) :
    (ReversibleOp.CreateFunctionOp t).reverse = some (ReversibleOp.DropFunctionOp t)
    ∧ (ReversibleOp.DropFunctionOp t).reverse = some (ReversibleOp.CreateFunctionOp t)
    ∧ ((ReversibleOp.CreateFunctionOp t).reverse.bind ReversibleOp.reverse
        = some (ReversibleOp.CreateFunctionOp t)
      ∧ (ReversibleOp.DropFunctionOp t).reverse.bind ReversibleOp.reverse
        = some (ReversibleOp.DropFunctionOp t))
    ∧ (ReversibleOp.ReplaceFunctionOp t).reverse = some (ReversibleOp.RevertFunctionOp t)
    ∧ (ReversibleOp.RevertFunctionOp t).reverse = none
    ∧ ∀ op op2 : ReversibleOp, op.reverse = some op2 → op2.target = op.target := by
  refine ⟨rfl, rfl, ⟨rfl, rfl⟩, rfl, rfl, ?_⟩
  intro op op2 h
  cases op with
  | CreateFunctionOp u => cases h; rfl
  | DropFunctionOp u => cases h; rfl
  | ReplaceFunctionOp u => cases h; rfl
  | RevertFunctionOp u => cases h

theorem reversible_op_reverse_spec_witness :
    (ReversibleOp.DropFunctionOp exTarget).target
      = (ReversibleOp.CreateFunctionOp exTarget).target := by
  have h := reversible_op_reverse_spec exTarget
  exact h.2.2.2.2.2 (ReversibleOp.CreateFunctionOp exTarget)
    (ReversibleOp.DropFunctionOp exTarget) h.1

/-- C4 counterexample: two PGFunctions whose schemas differ (only in
letter case) receive the identical identifier, so the identifier does
not change whenever the schema changes. -/
theorem to_variable_name_schema_case_collision :
    ¬ exSchemaUpper.schema = exSchemaLower.schema
    ∧ to_variable_name exMd5 exSchemaUpper = to_variable_name exMd5 exSchemaLower := by
  constructor
  · decide
  · decide

/-- C4 (amended): the identifier ignores the definition entirely —
identical schema and signature give the identical identifier regardless
of the bodies — and more generally the identifier is determined by the
stripped lowercased schema together with the lowercased signature, so it
changes only when one of those changes (schemas differing only in case
or surrounding whitespace can share an identifier). -/
theorem to_variable_name_determined :
    (∀ (md5hex : Str → Str) (f g : PGFunction), f.schema = g.schema →
      f.signature = g.signature → to_variable_name md5hex f = to_variable_name md5hex g)
    ∧ (∀ (md5hex : Str → Str) (f g : PGFunction),
      pyStrip (pyLower f.schema) = pyStrip (pyLower g.schema) →
      pyLower f.signature = pyLower g.signature →
      to_variable_name md5hex f = to_variable_name md5hex g) := by
  have key : ∀ (md5hex : Str → Str) (f g : PGFunction),
      pyStrip (pyLower f.schema) = pyStrip (pyLower g.schema) →
      pyLower f.signature = pyLower g.signature →
      to_variable_name md5hex f = to_variable_name md5hex g := by
    intro md5hex f g hsch hsig
    unfold to_variable_name
    rw [hsch]
    have hfn : pyLower (pyStrip (f.signature.takeWhile notParen))
        = pyLower (pyStrip (g.signature.takeWhile notParen)) := by
      rw [pyLower_pyStrip, pyLower_pyStrip, ← takeWhile_notParen_pyLower,
        ← takeWhile_notParen_pyLower, hsig]
    rw [hfn]
    have hnw : normalize_whitespace (pyLower f.signature)
        = normalize_whitespace (pyLower g.signature) := by rw [hsig]
    rw [hnw]
  refine ⟨?_, key⟩
  intro md5hex f g hsch hsig
  exact key md5hex f g (by rw [hsch]) (by rw [hsig])

theorem to_variable_name_determined_witness :
    to_variable_name exMd5 exSchemaUpper = to_variable_name exMd5 exSchemaLower :=
  to_variable_name_determined.2 exMd5 exSchemaUpper exSchemaLower (by decide) (by decide)

theorem leadsWith_append (m r : Str) : leadsWith m (m ++ r) = true := by
  induction m with
  | nil => rfl
  | cons a as ih => simp [leadsWith, ih]

theorem hasSub_here (m r : Str) : hasSub m (m ++ r) = true := by
  cases m with
  | nil =>
      cases r with
      | nil => rfl
      | cons b rest => simp [hasSub, leadsWith]
  | cons a as =>
      simp only [List.cons_append, hasSub, Bool.or_eq_true]
      exact Or.inl (leadsWith_append (a :: as) r)

theorem hasSub_cons (m : Str) (b : Char) (big : Str) (h : hasSub m big = true) :
    hasSub m (b :: big) = true := by
  cases m with
  | nil => simp [hasSub, leadsWith]
  | cons a as => simp [hasSub, h]

theorem hasSub_append_left (m : Str) {l big : Str} (h : hasSub m big = true) :
    hasSub m (l ++ big) = true := by
  induction l with
  | nil => exact h
  | cons b bs ih => exact hasSub_cons m b (bs ++ big) ih

/-- C2 counterexample: the snippet rendered for a Drop operation does
not contain the target's definition (the definition field is the fixed
placeholder `# Not Used`). -/
theorem render_drop_definition_not_contained :
    hasSub exTarget.definition (render_drop_function exMd5 exTarget) = false := by
  decide

/-- C2 (amended): the Create and Replace snippets contain the target's
schema, signature and definition as literal fields and the matching
apply-operation directive; the Drop snippet contains the target's schema
and signature but the fixed placeholder definition `# Not Used`,
followed by the drop directive; the Revert snippet contains the schema,
signature and definition of the live database lookup result, followed by
the replace directive. -/
theorem render_snippet_shape :
    (∀ (h : Str → Str) (t : PGFunction),
        hasSub t.schema (render_create_function h t) = true
      ∧ hasSub t.signature (render_create_function h t) = true
      ∧ hasSub t.definition (render_create_function h t) = true
      ∧ hasSub ("op.create_function(".data) (render_create_function h t) = true)
    ∧ (∀ (h : Str → Str) (t : PGFunction),
        hasSub t.schema (render_drop_function h t) = true
      ∧ hasSub t.signature (render_drop_function h t) = true
      ∧ hasSub ("definition=\"# Not Used\"".data) (render_drop_function h t) = true
      ∧ hasSub ("op.drop_function(".data) (render_drop_function h t) = true)
    ∧ (∀ (h : Str → Str) (t : PGFunction),
        hasSub t.schema (render_replace_function h t) = true
      ∧ hasSub t.signature (render_replace_function h t) = true
      ∧ hasSub t.definition (render_replace_function h t) = true
      ∧ hasSub ("op.replace_function(".data) (render_replace_function h t) = true)
    ∧ (∀ (h : Str → Str) (db : DB) (t g : PGFunction) (s : Str),
        get_db_definition t db = Except.ok (some g) →
        render_revert_function h db t = Except.ok s →
        hasSub g.schema s = true
      ∧ hasSub g.signature s = true
      ∧ hasSub g.definition s = true
      ∧ hasSub ("op.replace_function(".data) s = true) := by
  refine ⟨?_, ?_, ?_, ?_⟩
  · intro h t
    unfold render_create_function
    have hsplit : ("\"\"\"\n    )\n\nop.create_function(".data : Str)
        = "\"\"\"\n    )\n\n".data ++ "op.create_function(".data := by decide
    rw [hsplit]
    simp only [List.append_assoc]
    refine ⟨?_, ?_, ?_, ?_⟩ <;>
      repeat (first | exact hasSub_here _ _ | apply hasSub_append_left)
  · intro h t
    unfold render_drop_function
    have hsplit : ("\",\n        definition=\"# Not Used\"\n    )\n\nop.drop_function(".data : Str)
        = "\",\n        ".data
          ++ ("definition=\"# Not Used\"".data ++ "\n    )\n\nop.drop_function(".data) := by
      decide
    have hsplit2 : ("\n    )\n\nop.drop_function(".data : Str)
        = "\n    )\n\n".data ++ "op.drop_function(".data := by decide
    rw [hsplit, hsplit2]
    simp only [List.append_assoc]
    refine ⟨?_, ?_, ?_, ?_⟩ <;>
      repeat (first | exact hasSub_here _ _ | apply hasSub_append_left)
  · intro h t
    unfold render_replace_function
    have hsplit : ("\"\"\"\n    )\nop.replace_function(".data : Str)
        = "\"\"\"\n    )\n".data ++ "op.replace_function(".data := by decide
    rw [hsplit]
    simp only [List.append_assoc]
    refine ⟨?_, ?_, ?_, ?_⟩ <;>
      repeat (first | exact hasSub_here _ _ | apply hasSub_append_left)
  · intro h db t g s hdb hrender
    have hval : render_revert_function h db t = Except.ok (revert_snippet h t g) := by
      unfold render_revert_function
      rw [hdb]
      rfl
    rw [hval] at hrender
    injection hrender with hs
    subst hs
    unfold revert_snippet
    have hsplit : ("\"\"\"\n    )\nop.replace_function(".data : Str)
        = "\"\"\"\n    )\n".data ++ "op.replace_function(".data := by decide
    rw [hsplit]
    simp only [List.append_assoc]
    refine ⟨?_, ?_, ?_, ?_⟩ <;>
      repeat (first | exact hasSub_here _ _ | apply hasSub_append_left)

theorem render_snippet_shape_witness :
    hasSub exTarget.schema (render_create_function exMd5 exTarget) = true
    ∧ hasSub ("op.replace_function(".data) exRevertStr = true := by
  constructor
  · exact (render_snippet_shape.1 exMd5 exTarget).1
  · exact (render_snippet_shape.2.2.2 exMd5 exDb exTarget exTarget exRevertStr
      (by decide) (by decide)).2.2.2

theorem sqlLike_pct (s : Str) : sqlLike ("%".data) s = true := by
  show sqlLike ['%'] s = true
  have h1 : sqlLike ['%'] s = s.tails.any (fun t => sqlLike [] t) := by
    simp [sqlLike]
  rw [h1, List.any_eq_true]
  refine ⟨[], ?_, ?_⟩
  · rw [List.mem_tails]
    exact List.nil_suffix
  · rfl

theorem seqOpt_map_eq_some_iff {α β : Type} (f : α → Option β) :
    ∀ (l : List α) (res : List β),
      seqOpt (l.map f) = some res ↔ List.Forall₂ (fun a b => f a = some b) l res := by
  intro l
  induction l with
  | nil =>
      intro res
      constructor
      · intro h
        cases h
        exact List.Forall₂.nil
      · intro h
        cases h
        rfl
  | cons a as ih =>
      intro res
      constructor
      · intro h
        simp only [List.map_cons] at h
        cases hfa : f a with
        | none =>
            rw [hfa] at h
            simp only [seqOpt] at h
            exact Option.noConfusion h
        | some b =>
            rw [hfa] at h
            simp only [seqOpt] at h
            cases hrest : seqOpt (as.map f) with
            | none =>
                rw [hrest] at h
                exact Option.noConfusion h
            | some rest =>
                rw [hrest] at h
                simp only [Option.map_some'] at h
                cases h
                exact List.Forall₂.cons hfa ((ih rest).mp hrest)
      · intro h
        cases h with
        | cons hab hrest =>
            rename_i b bs
            simp only [List.map_cons, seqOpt, hab]
            rw [(ih bs).mpr hrest]
            rfl

theorem seqOpt_map_eq_none_iff {α β : Type} (f : α → Option β) (l : List α) :
    seqOpt (l.map f) = none ↔ ∃ a ∈ l, f a = none := by
  induction l with
  | nil => simp [seqOpt]
  | cons a as ih =>
      simp only [List.map_cons]
      cases hfa : f a with
      | none =>
          simp only [seqOpt]
          constructor
          · intro _
            exact ⟨a, List.mem_cons_self a as, hfa⟩
          · intro _
            trivial
      | some b =>
          simp only [seqOpt]
          constructor
          · intro h
            cases hrest : seqOpt (as.map f) with
            | none =>
                obtain ⟨x, hx, hfx⟩ := ih.mp hrest
                exact ⟨x, List.mem_cons_of_mem a hx, hfx⟩
            | some rest =>
                rw [hrest] at h
                exact Option.noConfusion h
          · intro hex
            obtain ⟨x, hx, hfx⟩ := hex
            cases hx with
            | head => rw [hfx] at hfa; exact Option.noConfusion hfa
            | tail _ hmem =>
                rw [ih.mpr ⟨x, hmem, hfx⟩]
                rfl

/-- C8: with the default all-schemas filter, get_db_functions aborts
with the assertion failure exactly when some catalog row's creation
statement fails to parse, and on success returns exactly one parsed
PGFunction per catalog row, in row order. -/
theorem get_db_functions_parse_all (db : DB) :
    ((∃ r ∈ db.rows, from_sql r.create_statement = none) →
        get_db_functions db ("%".data) = Except.error assertionErrorMsg)
    ∧ ∀ fs, get_db_functions db ("%".data) = Except.ok fs →
        List.Forall₂ (fun (r : Row) (f : PGFunction) => from_sql r.create_statement = some f)
          db.rows fs := by
  have hfilter : db.rows.filter (fun r => sqlLike ("%".data) r.nspname) = db.rows :=
    List.filter_eq_self.mpr (fun a _ => sqlLike_pct a.nspname)
  constructor
  · intro hex
    unfold get_db_functions
    rw [hfilter]
    have hnone : seqOpt (db.rows.map (fun r => from_sql r.create_statement)) = none := by
      rw [seqOpt_map_eq_none_iff]
      exact hex
    rw [hnone]
  · intro fs hok
    unfold get_db_functions at hok
    rw [hfilter] at hok
    cases hseq : seqOpt (db.rows.map (fun r => from_sql r.create_statement)) with
    | none =>
        rw [hseq] at hok
        have hok2 : (Except.error assertionErrorMsg : Except String (List PGFunction))
            = Except.ok fs := hok
        exact Except.noConfusion hok2
    | some res =>
        rw [hseq] at hok
        have hok2 : (Except.ok res : Except String (List PGFunction)) = Except.ok fs := hok
        injection hok2 with h3
        subst h3
        exact (seqOpt_map_eq_some_iff _ db.rows _).mp hseq

theorem get_db_functions_parse_all_witness :
    get_db_functions exDbBadRow ("%".data) = Except.error assertionErrorMsg :=
  (get_db_functions_parse_all exDbBadRow).1 (by decide)

/-- C5: given a successful catalog fetch scoped to the desired schema,
get_db_definition returns none exactly when no fetched entry matches the
desired signature and schema per the comparator, and returns the unique
matching entry when exactly one matches. -/
theorem get_db_definition_lookup_spec (self : PGFunction) (db : DB) (fs : List PGFunction)
    (hfs : get_db_functions db self.schema = Except.ok fs) :
    (get_db_definition self db = Except.ok none
        ↔ fs.filter (fun x => is_equal_signature self x) = [])
    ∧ ∀ m, fs.filter (fun x => is_equal_signature self x) = [m] →
        get_db_definition self db = Except.ok (some m) := by
  unfold get_db_definition
  rw [hfs]
  constructor
  · show Except.ok ((fs.filter (fun x => is_equal_signature self x)).head?) = Except.ok none ↔ _
    constructor
    · intro h
      injection h with h2
      exact List.head?_eq_none_iff.mp h2
    · intro h
      rw [h]
      rfl
  · intro m hm
    show Except.ok ((fs.filter (fun x => is_equal_signature self x)).head?) = Except.ok (some m)
    rw [hm]
    rfl

theorem get_db_definition_lookup_spec_witness :
    get_db_definition exDesired exDbLive = Except.ok (some exDesired) :=
  (get_db_definition_lookup_spec exDesired exDbLive [exDesired] (by decide)).2
    exDesired (by decide)

theorem sqlLike_noWild (pat : Str) (hW : ∀ c ∈ pat, ¬ c = '%' ∧ ¬ c = '_') :
    ∀ s : Str, sqlLike pat s = true ↔ pat = s := by
  induction pat with
  | nil =>
      intro s
      cases s with
      | nil => simp [sqlLike]
      | cons c s1 => simp [sqlLike]
  | cons p ps ih =>
      intro s
      have hp := hW p (List.mem_cons_self p ps)
      have ihW : ∀ c ∈ ps, ¬ c = '%' ∧ ¬ c = '_' :=
        fun c hc => hW c (List.mem_cons_of_mem p hc)
      cases s with
      | nil =>
          simp only [sqlLike, if_neg hp.1]
          simp
      | cons c s1 =>
          simp only [sqlLike, if_neg hp.1, if_neg hp.2, Bool.and_eq_true,
            decide_eq_true_eq, List.cons.injEq]
          rw [ih ihW s1]

theorem sqlLike_scratch_self : sqlLike scratchSchema scratchSchema = true := by
  decide

theorem adjusted_target_schema (self : PGFunction) :
    (adjusted_target self).schema = scratchSchema := rfl

/-- Catalog lookup of the adjusted target right after it was created in
a scratch schema whose `LIKE` filter matched no pre-existing row (note
that the underscore of `alembic_autogen` is a `LIKE` wildcard): it finds
exactly the stored row's parse, provided that parse matches the adjusted
target's signature. -/
theorem get_db_definition_scratch (storedStmt : PGFunction → Str) (self : PGFunction)
    (db : DB) (g : PGFunction)
    (hclean : ∀ r ∈ db.rows, sqlLike scratchSchema r.nspname = false)
    (hparse : from_sql (storedStmt (adjusted_target self)) = some g)
    (hsig : is_equal_signature (adjusted_target self) g = true) :
    get_db_definition (adjusted_target self)
      (execCreateOrReplaceFunction storedStmt
        (execCreateSchemaIfNotExists db (adjusted_target self).schema)
        (adjusted_target self))
      = Except.ok (some g) := by
  have hrows : (execCreateOrReplaceFunction storedStmt
      (execCreateSchemaIfNotExists db (adjusted_target self).schema)
      (adjusted_target self)).rows
      = db.rows ++ [⟨scratchSchema, storedStmt (adjusted_target self)⟩] := by
    unfold execCreateOrReplaceFunction execCreateSchemaIfNotExists
    by_cases hmem : (adjusted_target self).schema ∈ db.schemas
    · rw [if_pos hmem]
      rfl
    · rw [if_neg hmem]
      rfl
  have hfs : get_db_functions
      (execCreateOrReplaceFunction storedStmt
        (execCreateSchemaIfNotExists db (adjusted_target self).schema)
        (adjusted_target self))
      (adjusted_target self).schema = Except.ok [g] := by
    unfold get_db_functions
    rw [hrows, adjusted_target_schema, List.filter_append]
    have h1 : db.rows.filter (fun r => sqlLike scratchSchema r.nspname) = [] := by
      rw [List.filter_eq_nil_iff]
      intro r hr
      rw [hclean r hr]
      intro hcontra
      exact Bool.noConfusion hcontra
    have h2 : ([(⟨scratchSchema, storedStmt (adjusted_target self)⟩ : Row)]).filter
        (fun r => sqlLike scratchSchema r.nspname)
        = [⟨scratchSchema, storedStmt (adjusted_target self)⟩] := by
      rw [List.filter_eq_self]
      intro a ha
      cases ha with
      | head => exact sqlLike_scratch_self
      | tail _ h => cases h
    rw [h1, h2, List.nil_append, List.map_cons, List.map_nil, hparse]
    rfl
  unfold get_db_definition
  rw [hfs]
  show Except.ok (([g].filter (fun x => is_equal_signature (adjusted_target self) x)).head?)
      = Except.ok (some g)
  rw [List.filter_cons_of_pos hsig]
  rfl

/-- C1: the diff returns the Create operation exactly when the lookup
scoped to the desired schema finds no match (leaving the state
untouched); when a live match exists and the scratch round trip
parses compatibly in a clean scratch schema, it returns no operation
exactly when the live body equals the round-tripped desired body under
whitespace normalization and the Replace operation otherwise; and no
run ever returns Drop or Revert. -/
theorem required_migration_op_spec (storedStmt : PGFunction → Str) (self : PGFunction)
    (db : DB) :
    (∀ dbq, get_required_migration_op storedStmt self db
        = Except.ok (dbq, some MigrationOpKind.CreateFunctionOp)
        ↔ (get_db_definition self db = Except.ok none ∧ dbq = db))
    ∧ (∀ live g,
        get_db_definition self db = Except.ok (some live) →
        from_sql (storedStmt (adjusted_target self)) = some g →
        is_equal_signature (adjusted_target self) g = true →
        (∀ r ∈ db.rows, sqlLike scratchSchema r.nspname = false) →
        get_required_migration_op storedStmt self db
          = Except.ok (execDropSchemaCascade
              (execCreateOrReplaceFunction storedStmt
                (execCreateSchemaIfNotExists db (adjusted_target self).schema)
                (adjusted_target self))
              scratchSchema,
            if is_equal_definition live g then none
            else some MigrationOpKind.ReplaceFunctionOp))
    ∧ (∀ dbq k, get_required_migration_op storedStmt self db = Except.ok (dbq, some k) →
        ¬ k = MigrationOpKind.DropFunctionOp ∧ ¬ k = MigrationOpKind.RevertFunctionOp) := by
  refine ⟨?_, ?_, ?_⟩
  · intro dbq
    unfold get_required_migration_op
    cases h1 : get_db_definition self db with
    | error e =>
        constructor
        · intro h
          exact Except.noConfusion h
        · intro h
          exact Except.noConfusion h.1
    | ok v =>
        cases v with
        | none =>
            constructor
            · intro h
              injection h with h2
              injection h2 with h3 h4
              exact ⟨rfl, h3.symm⟩
            · intro h
              rw [h.2]
        | some live =>
            constructor
            · intro h
              cases h2 : get_db_definition (adjusted_target self)
                  (execCreateOrReplaceFunction storedStmt
                    (execCreateSchemaIfNotExists db (adjusted_target self).schema)
                    (adjusted_target self)) with
              | error e =>
                  rw [h2] at h
                  exact Except.noConfusion h
              | ok w =>
                  cases w with
                  | none =>
                      rw [h2] at h
                      exact Except.noConfusion h
                  | some temp =>
                      rw [h2] at h
                      injection h with h3
                      injection h3 with h4 h5
                      exfalso
                      by_cases hP : is_equal_definition live temp = true
                      · rw [if_pos hP] at h5
                        exact Option.noConfusion h5
                      · rw [if_neg hP] at h5
                        injection h5 with h6
                        exact MigrationOpKind.noConfusion h6
            · intro h
              have hx := h.1
              injection hx with hy
              exact Option.noConfusion hy
  · intro live g hlive hparse hsig hclean
    unfold get_required_migration_op
    rw [hlive, get_db_definition_scratch storedStmt self db g hclean hparse hsig]
  · intro dbq k
    unfold get_required_migration_op
    cases h1 : get_db_definition self db with
    | error e =>
        intro h
        exact Except.noConfusion h
    | ok v =>
        cases v with
        | none =>
            intro h
            injection h with h2
            injection h2 with h3 h4
            injection h4 with h5
            rw [← h5]
            exact ⟨by intro hc; exact MigrationOpKind.noConfusion hc,
              by intro hc; exact MigrationOpKind.noConfusion hc⟩
        | some live =>
            cases h2 : get_db_definition (adjusted_target self)
                (execCreateOrReplaceFunction storedStmt
                  (execCreateSchemaIfNotExists db (adjusted_target self).schema)
                  (adjusted_target self)) with
            | error e =>
                intro h
                exact Except.noConfusion h
            | ok w =>
                cases w with
                | none =>
                    intro h
                    exact Except.noConfusion h
                | some temp =>
                    intro h
                    injection h with h3
                    injection h3 with h4 h5
                    by_cases hP : is_equal_definition live temp = true
                    · rw [if_pos hP] at h5
                      exact Option.noConfusion h5
                    · rw [if_neg hP] at h5
                      injection h5 with h6
                      rw [← h6]
                      exact ⟨by intro hc; exact MigrationOpKind.noConfusion hc,
                        by intro hc; exact MigrationOpKind.noConfusion hc⟩

theorem required_migration_op_spec_witness :
    get_required_migration_op exStored exDesired exDbLive
      = Except.ok (execDropSchemaCascade
          (execCreateOrReplaceFunction exStored
            (execCreateSchemaIfNotExists exDbLive (adjusted_target exDesired).schema)
            (adjusted_target exDesired))
          scratchSchema,
        if is_equal_definition exDesired (adjusted_target exDesired) then none
        else some MigrationOpKind.ReplaceFunctionOp) :=
  (required_migration_op_spec exStored exDesired exDbLive).2.1 exDesired
    (adjusted_target exDesired) (by decide) (by decide) (by decide) (by decide)

/-- C9: a successful diff never touches catalog rows outside the fixed
scratch schema — the rows of every other schema are the same before and
after — and unless the run returned Create (the branch that runs no DDL
at all), the scratch schema and all rows in it are gone from the final
state. -/
theorem migration_op_frame (storedStmt : PGFunction → Str) (self : PGFunction)
    (db dbq : DB) (res : Option MigrationOpKind)
    (hrun : get_required_migration_op storedStmt self db = Except.ok (dbq, res)) :
    dbq.rows.filter (fun r => ¬ r.nspname = scratchSchema)
      = db.rows.filter (fun r => ¬ r.nspname = scratchSchema)
    ∧ (¬ res = some MigrationOpKind.CreateFunctionOp →
        dbq.rows.filter (fun r => r.nspname = scratchSchema) = []
        ∧ ¬ scratchSchema ∈ dbq.schemas) := by
  unfold get_required_migration_op at hrun
  cases h1 : get_db_definition self db with
  | error e =>
      rw [h1] at hrun
      exact Except.noConfusion hrun
  | ok v =>
      cases v with
      | none =>
          rw [h1] at hrun
          injection hrun with h2
          injection h2 with h3 h4
          subst h3
          constructor
          · rfl
          · intro hres
            exfalso
            exact hres h4.symm
      | some live =>
          rw [h1] at hrun
          cases h2 : get_db_definition (adjusted_target self)
              (execCreateOrReplaceFunction storedStmt
                (execCreateSchemaIfNotExists db (adjusted_target self).schema)
                (adjusted_target self)) with
          | error e =>
              rw [h2] at hrun
              exact Except.noConfusion hrun
          | ok w =>
              cases w with
              | none =>
                  rw [h2] at hrun
                  exact Except.noConfusion hrun
              | some temp =>
                  rw [h2] at hrun
                  injection hrun with h3
                  injection h3 with h4 h5
                  subst h4
                  have hrows : (execCreateOrReplaceFunction storedStmt
                      (execCreateSchemaIfNotExists db (adjusted_target self).schema)
                      (adjusted_target self)).rows
                      = db.rows ++ [⟨scratchSchema, storedStmt (adjusted_target self)⟩] := by
                    unfold execCreateOrReplaceFunction execCreateSchemaIfNotExists
                    by_cases hmem : (adjusted_target self).schema ∈ db.schemas
                    · rw [if_pos hmem]
                      rfl
                    · rw [if_neg hmem]
                      rfl
                  constructor
                  · show ((execDropSchemaCascade _ scratchSchema).rows).filter _ = _
                    unfold execDropSchemaCascade
                    rw [hrows, List.filter_filter, List.filter_append]
                    have hone : ([(⟨scratchSchema, storedStmt (adjusted_target self)⟩ : Row)]).filter
                        (fun r => decide ¬ r.nspname = scratchSchema
                          && decide ¬ r.nspname = scratchSchema) = [] := by
                      simp
                    rw [hone, List.append_nil]
                    apply List.filter_congr
                    intro r hr
                    simp
                  · intro hres
                    constructor
                    · show ((execDropSchemaCascade _ scratchSchema).rows).filter _ = []
                      unfold execDropSchemaCascade
                      rw [List.filter_filter, List.filter_eq_nil_iff]
                      intro r hr
                      simp
                    · show ¬ scratchSchema ∈ (execDropSchemaCascade _ scratchSchema).schemas
                      unfold execDropSchemaCascade
                      intro hmem
                      rw [List.mem_filter] at hmem
                      have := hmem.2
                      simp at this

theorem migration_op_frame_witness :
    (execDropSchemaCascade
      (execCreateOrReplaceFunction exStored
        (execCreateSchemaIfNotExists exDbLive (adjusted_target exDesired).schema)
        (adjusted_target exDesired))
      scratchSchema).rows.filter (fun r => r.nspname = scratchSchema) = [] := by
  have h := migration_op_frame exStored exDesired exDbLive
    (execDropSchemaCascade
      (execCreateOrReplaceFunction exStored
        (execCreateSchemaIfNotExists exDbLive (adjusted_target exDesired).schema)
        (adjusted_target exDesired))
      scratchSchema)
    none (by decide)
  exact (h.2 (by intro hc; exact Option.noConfusion hc)).1

theorem pyJoin_cons_cons (sep x y : Str) (zs : List Str) :
    pyJoin sep (x :: y :: zs) = x ++ sep ++ pyJoin sep (y :: zs) := rfl

theorem splitAux_nil_eq_nil_iff (cs : Str) :
    splitAux [] cs = [] ↔ ∀ c ∈ cs, isWS c = true := by
  induction cs with
  | nil => simp [splitAux]
  | cons c rest ih =>
      by_cases hw : isWS c = true
      · simp only [splitAux, hw, if_pos, List.isEmpty_nil, if_true]
        rw [ih]
        constructor
        · intro h d hd
          cases hd with
          | head => exact hw
          | tail _ hm => exact h d hm
        · intro h d hd
          exact h d (List.mem_cons_of_mem c hd)
      · rw [Bool.not_eq_true] at hw
        simp only [splitAux, hw, Bool.false_eq_true, if_false]
        constructor
        · intro h
          exfalso
          have hne : ∀ (acc : Str) (xs : Str), ¬ acc = [] → ¬ splitAux acc xs = [] := by
            intro acc xs
            induction xs generalizing acc with
            | nil =>
                intro hacc
                have : acc.isEmpty = false := by
                  cases acc with
                  | nil => exact absurd rfl hacc
                  | cons a as => rfl
                simp [splitAux, this]
            | cons d ds ihd =>
                intro hacc
                by_cases hd : isWS d = true
                · have : acc.isEmpty = false := by
                    cases acc with
                    | nil => exact absurd rfl hacc
                    | cons a as => rfl
                  simp [splitAux, hd, this]
                · rw [Bool.not_eq_true] at hd
                  simp only [splitAux, hd, Bool.false_eq_true, if_false]
                  exact ihd (d :: acc) (by intro hc; exact List.noConfusion hc)
          exact hne [c] rest (by intro hc; exact List.noConfusion hc) h
        · intro h
          have := h c (List.mem_cons_self c rest)
          rw [this] at hw
          exact Bool.noConfusion hw

/-- Core relation between Python's split-and-join and the
run-collapsing of the claims, on strings without trailing whitespace:
with a nonempty token in progress the join continues it, and with no
token in progress the join equals the collapse-inside-a-run form. -/
theorem splitAux_collapseAux (cs : Str)
    (hNT : ∀ ys c, cs = ys ++ [c] → isWS c = false) :
    (∀ acc : Str, ¬ acc = [] →
        pyJoin [' '] (splitAux acc cs) = acc.reverse ++ collapseAux false cs)
    ∧ pyJoin [' '] (splitAux [] cs) = collapseAux true cs := by
  induction cs with
  | nil =>
      constructor
      · intro acc hacc
        have haccE : acc.isEmpty = false := by
          cases acc with
          | nil => exact absurd rfl hacc
          | cons a as => rfl
        simp [splitAux, haccE, collapseAux]
        cases acc with
        | nil => exact absurd rfl hacc
        | cons a as => rfl
      · rfl
  | cons c rest ih =>
      have hNTr : ∀ ys d, rest = ys ++ [d] → isWS d = false := by
        intro ys d hd
        exact hNT (c :: ys) d (by rw [hd]; rfl)
      obtain ⟨ihA, ihB⟩ := ih hNTr
      by_cases hw : isWS c = true
      · have hne : ¬ splitAux [] rest = [] := by
          rw [splitAux_nil_eq_nil_iff]
          intro hall
          cases List.eq_nil_or_concat rest with
          | inl hnil =>
              have := hNT [] c (by rw [hnil]; rfl)
              rw [this] at hw
              exact Bool.noConfusion hw
          | inr hcat =>
              obtain ⟨ys, d, hyd⟩ := hcat
              rw [List.concat_eq_append] at hyd
              have hd1 : isWS d = false := hNT (c :: ys) d (by rw [hyd]; rfl)
              have hd2 : isWS d = true := hall d (by rw [hyd]; simp)
              rw [hd1] at hd2
              exact Bool.noConfusion hd2
        obtain ⟨t, ts, hts⟩ : ∃ t ts, splitAux [] rest = t :: ts := by
          cases h : splitAux [] rest with
          | nil => exact absurd h hne
          | cons t ts => exact ⟨t, ts, rfl⟩
        constructor
        · intro acc hacc
          have haccE : acc.isEmpty = false := by
            cases acc with
            | nil => exact absurd rfl hacc
            | cons a as => rfl
          simp only [splitAux, hw, if_true, haccE, Bool.false_eq_true, if_false]
          rw [hts, pyJoin_cons_cons]
          simp only [collapseAux, hw, if_true]
          rw [← hts, ihB]
          simp [List.append_assoc]
        · simp only [splitAux, hw, if_true, List.isEmpty_nil]
          simp only [collapseAux, hw, if_true]
          exact ihB
      · rw [Bool.not_eq_true] at hw
        constructor
        · intro acc hacc
          simp only [splitAux, hw, Bool.false_eq_true, if_false]
          rw [ihA (c :: acc) (by intro hx; exact List.noConfusion hx)]
          simp only [collapseAux, hw, Bool.false_eq_true, if_false]
          simp [List.append_assoc]
        · simp only [splitAux, hw, Bool.false_eq_true, if_false]
          rw [ihA [c] (by intro hx; exact List.noConfusion hx)]
          simp only [collapseAux, hw, Bool.false_eq_true, if_false]
          rfl

theorem splitAux_allWS (w : Str) :
    (∀ c ∈ w, isWS c = true) → ∀ acc : Str, splitAux acc w = splitAux acc [] := by
  induction w with
  | nil =>
      intro _ _
      rfl
  | cons d ds ih =>
      intro hall acc
      have hd : isWS d = true := hall d (List.mem_cons_self d ds)
      have htail := ih (fun c hc => hall c (List.mem_cons_of_mem d hc))
      cases acc with
      | nil =>
          simp only [splitAux, hd, if_true, List.isEmpty_nil]
          exact htail []
      | cons a as =>
          simp only [splitAux, hd, if_true, List.isEmpty_cons, Bool.false_eq_true, if_false]
          rw [htail []]
          rfl

theorem splitAux_append_allWS (w : Str) (hall : ∀ c ∈ w, isWS c = true) :
    ∀ (u : Str) (acc : Str), splitAux acc (u ++ w) = splitAux acc u := by
  intro u
  induction u with
  | nil =>
      intro acc
      exact splitAux_allWS w hall acc
  | cons c u1 ihu =>
      intro acc
      by_cases hw : isWS c = true
      · cases acc with
        | nil =>
            simp only [List.cons_append, splitAux, hw, if_true, List.isEmpty_nil]
            exact ihu []
        | cons a as =>
            simp only [List.cons_append, splitAux, hw, if_true, List.isEmpty_cons,
              Bool.false_eq_true, if_false]
            exact congrArg (fun x => (a :: as).reverse :: x) (ihu [])
      · rw [Bool.not_eq_true] at hw
        simp only [List.cons_append, splitAux, hw, Bool.false_eq_true, if_false]
        exact ihu (c :: acc)

theorem pyStripRight_decomp (t : Str) :
    pyStripRight t ++ (t.reverse.takeWhile isWS).reverse = t := by
  unfold pyStripRight
  rw [← List.reverse_append, List.takeWhile_append_dropWhile, List.reverse_reverse]

theorem pySplit_pyStripRight (t : Str) : pySplit (pyStripRight t) = pySplit t := by
  have hall : ∀ c ∈ (t.reverse.takeWhile isWS).reverse, isWS c = true := by
    intro c hc
    rw [List.mem_reverse] at hc
    exact List.mem_takeWhile_imp hc
  unfold pySplit
  rw [← splitAux_append_allWS (t.reverse.takeWhile isWS).reverse hall (pyStripRight t) [],
    pyStripRight_decomp]

theorem splitAux_dropLeading (cs : Str) :
    splitAux [] (cs.dropWhile isWS) = splitAux [] cs := by
  induction cs with
  | nil => rfl
  | cons c rest ih =>
      by_cases hw : isWS c = true
      · rw [List.dropWhile_cons, if_pos hw, ih]
        simp only [splitAux, hw, if_true, List.isEmpty_nil]
      · rw [Bool.not_eq_true] at hw
        rw [List.dropWhile_cons, if_neg (by rw [hw]; intro hc; exact Bool.noConfusion hc)]

theorem dropWhile_head_false (p : Char → Bool) :
    ∀ (l t : Str) (c : Char), l.dropWhile p = c :: t → p c = false := by
  intro l
  induction l with
  | nil =>
      intro t c h
      exact List.noConfusion h
  | cons a as ih =>
      intro t c h
      by_cases hpa : p a = true
      · rw [List.dropWhile_cons, if_pos hpa] at h
        exact ih t c h
      · rw [Bool.not_eq_true] at hpa
        rw [List.dropWhile_cons, if_neg (by rw [hpa]; intro hc; exact Bool.noConfusion hc)] at h
        injection h with h1 h2
        rw [← h1]
        exact hpa

/-- The source's normalization `" ".join(text.split())` equals the
claims' collapse-of-runs normalization applied after stripping both
ends. -/
theorem normalize_whitespace_collapse (cs : Str) :
    normalize_whitespace cs = collapseRuns (pyStrip cs) := by
  have h1 : pySplit (pyStrip cs) = pySplit cs := by
    unfold pyStrip
    rw [pySplit_pyStripRight (pyStripLeft cs)]
    exact splitAux_dropLeading cs
  have hrev : (pyStrip cs).reverse = (pyStripLeft cs).reverse.dropWhile isWS := by
    unfold pyStrip pyStripRight
    rw [List.reverse_reverse]
  have hNT : ∀ ys c, pyStrip cs = ys ++ [c] → isWS c = false := by
    intro ys c hyc
    have h2 : (pyStrip cs).reverse = c :: ys.reverse := by
      rw [hyc]
      simp
    rw [hrev] at h2
    exact dropWhile_head_false isWS (pyStripLeft cs).reverse ys.reverse c h2
  have hhead : ∀ d rest2, pyStrip cs = d :: rest2 → isWS d = false := by
    intro d rest2 hu
    have h3 : pyStripLeft cs
        = pyStrip cs ++ ((pyStripLeft cs).reverse.takeWhile isWS).reverse :=
      (pyStripRight_decomp (pyStripLeft cs)).symm
    rw [hu] at h3
    obtain ⟨w, hw3⟩ : ∃ w, pyStripLeft cs = (d :: rest2) ++ w := ⟨_, h3⟩
    have h4 : cs.dropWhile isWS = d :: (rest2 ++ w) := by
      rw [show cs.dropWhile isWS = pyStripLeft cs from rfl, hw3]
      rfl
    exact dropWhile_head_false isWS cs _ d h4
  rw [show normalize_whitespace cs = pyJoin [' '] (pySplit cs) from rfl, ← h1]
  cases hu : pyStrip cs with
  | nil => rfl
  | cons d rest2 =>
      have hd : isWS d = false := hhead d rest2 hu
      have hNTrest : ∀ ys c, rest2 = ys ++ [c] → isWS c = false := by
        intro ys c hyc
        exact hNT (d :: ys) c (by rw [hu, hyc]; rfl)
      show pyJoin [' '] (splitAux [] (d :: rest2)) = collapseAux false (d :: rest2)
      simp only [splitAux, hd, Bool.false_eq_true, if_false, List.isEmpty_nil]
      rw [(splitAux_collapseAux rest2 hNTrest).1 [d] (by intro hc; exact List.noConfusion hc)]
      simp only [collapseAux, hd, Bool.false_eq_true, if_false]
      rfl

/-- C7 counterexample: two definitions that the comparator declares
equal although their run-collapsed forms differ (the comparator also
discards leading and trailing whitespace, which collapsing alone keeps
as a single space). -/
theorem comparator_collapse_counterexample :
    is_equal_definition exDefPlain exDefTrail = true
    ∧ ¬ collapseRuns exDefPlain.definition = collapseRuns exDefTrail.definition := by
  constructor
  · decide
  · decide

/-- C7 (amended): definition equality holds exactly when the two
definitions agree after stripping leading and trailing whitespace and
collapsing every maximal interior whitespace run to one space; signature
equality holds exactly when the signatures agree in the same sense and
the schemas agree verbatim (case-sensitively, unnormalized). -/
theorem comparator_normalization_spec (a b : PGFunction) :
    (is_equal_definition a b = true
        ↔ collapseRuns (pyStrip a.definition) = collapseRuns (pyStrip b.definition))
    ∧ (is_equal_signature a b = true
        ↔ (collapseRuns (pyStrip a.signature) = collapseRuns (pyStrip b.signature)
            ∧ a.schema = b.schema)) := by
  constructor
  · unfold is_equal_definition
    rw [decide_eq_true_eq, normalize_whitespace_collapse, normalize_whitespace_collapse]
  · unfold is_equal_signature
    rw [Bool.and_eq_true, decide_eq_true_eq, decide_eq_true_eq,
      normalize_whitespace_collapse, normalize_whitespace_collapse]

theorem comparator_normalization_spec_witness :
    is_equal_definition exDefPlain exDefTrail = true :=
  (comparator_normalization_spec exDefPlain exDefTrail).1.mpr (by decide)

theorem trySplit_ne_nil (cs : Str) (d : Str) (h : trySplit cs = some d) : ¬ d = [] := by
  cases cs with
  | nil => exact Option.noConfusion h
  | cons c rest =>
      simp only [trySplit] at h
      repeat any_goals split at h
      all_goals
        first
        | exact Option.noConfusion h
        | (injection h with h4
           rw [← h4]
           intro hc
           exact List.noConfusion hc)

theorem matchSigDef_ne_nil (cs : Str) :
    ∀ (acc sig d : Str), matchSigDef acc cs = some (sig, d) → ¬ d = [] := by
  induction cs with
  | nil =>
      intro acc sig d h
      exact Option.noConfusion h
  | cons c rest ih =>
      intro acc sig d h
      unfold matchSigDef at h
      split at h
      · rename_i dd heq
        injection h with h2
        injection h2 with h3 h4
        rw [← h4]
        by_cases hacc : acc.isEmpty = true
        · rw [if_pos hacc] at heq
          exact absurd heq (by intro hc; exact Option.noConfusion hc)
        · rw [if_neg hacc] at heq
          exact trySplit_ne_nil (c :: rest) dd heq
      · exact ih (c :: acc) sig d h

theorem matchSchema_ne_nil (cs : Str) :
    ∀ (acc sch sig d : Str), matchSchema acc cs = some (sch, sig, d) → ¬ d = [] := by
  induction cs with
  | nil =>
      intro acc sch sig d h
      exact Option.noConfusion h
  | cons c rest ih =>
      intro acc sch sig d h
      unfold matchSchema at h
      split at h
      · split at h
        · rename_i sig2 d2 heq
          injection h with h2
          injection h2 with h3 h4
          injection h4 with h5 h6
          rw [← h6]
          exact matchSigDef_ne_nil rest [] sig2 d2 heq
        · exact ih (c :: acc) sch sig d h
      · exact ih (c :: acc) sch sig d h

theorem tryWs_ne_nil (n : Nat) :
    ∀ (cs sch sig d : Str), tryWs n cs = some (sch, sig, d) → ¬ d = [] := by
  induction n with
  | zero =>
      intro cs sch sig d h
      exact Option.noConfusion h
  | succ m ih =>
      intro cs sch sig d h
      unfold tryWs at h
      split at h
      · rename_i r heq
        injection h with h2
        rw [h2] at heq
        exact matchSchema_ne_nil (cs.drop (m + 1)) [] sch sig d heq
      · exact ih cs sch sig d h

theorem parseCORF_ne_nil (cs sch sig d : Str) (h : parseCORF cs = some (sch, sig, d)) :
    ¬ d = [] := by
  unfold parseCORF at h
  rw [Option.bind_eq_some] at h
  obtain ⟨r1, h1, h⟩ := h
  rw [Option.bind_eq_some] at h
  obtain ⟨r2, h2, h⟩ := h
  rw [Option.bind_eq_some] at h
  obtain ⟨r3, h3, h⟩ := h
  rw [Option.bind_eq_some] at h
  obtain ⟨r4, h4, h⟩ := h
  rw [Option.bind_eq_some] at h
  obtain ⟨r5, h5, h⟩ := h
  rw [Option.bind_eq_some] at h
  obtain ⟨r6, h6, h⟩ := h
  rw [Option.bind_eq_some] at h
  obtain ⟨r7, h7, h⟩ := h
  exact tryWs_ne_nil _ _ _ _ _ h

/-- C6: an input whose stripped form reads `CREATE FUNCTION ...` without
`OR REPLACE` yields no result (never an error — the function is total
and returns an `Option`); and every successful parse returns a
PGFunction whose definition is the literal nonempty post-parse remainder
prefixed by the normalized keyword `returns `. -/
theorem from_sql_shape_spec :
    (∀ s rest : Str, pyStrip s = "CREATE FUNCTION ".data ++ rest → from_sql s = none)
    ∧ (∀ (s : Str) (f : PGFunction), from_sql s = some f →
        ∃ d, ¬ d = [] ∧ f.definition = "returns ".data ++ d) := by
  constructor
  · intro s rest h
    unfold from_sql
    rw [h]
    rfl
  · intro s f h
    unfold from_sql at h
    cases hp : parseCORF (pyStrip s) with
    | none =>
        rw [hp] at h
        exact Option.noConfusion h
    | some p =>
        rw [hp] at h
        obtain ⟨sch, sig, d⟩ := p
        injection h with h2
        refine ⟨d, parseCORF_ne_nil (pyStrip s) sch sig d hp, ?_⟩
        rw [← h2]
        rfl

theorem from_sql_shape_spec_witness :
    from_sql exCreateNoReplace = none
    ∧ ∃ d, ¬ d = [] ∧ exTarget.definition = "returns ".data ++ d := by
  constructor
  · exact from_sql_shape_spec.1 exCreateNoReplace exCreateNoReplaceTail (by decide)
  · exact from_sql_shape_spec.2 ("CREATE OR REPLACE FUNCTION s.f() returns 42".data)
      exTarget (by decide)

theorem pyStripLeft_eq_self (t : Str) (h : ∀ c l, t = c :: l → isWS c = false) :
    pyStripLeft t = t := by
  cases t with
  | nil => rfl
  | cons c l =>
      unfold pyStripLeft
      rw [List.dropWhile_cons, if_neg]
      rw [h c l rfl]
      intro hc
      exact Bool.noConfusion hc

theorem pyStripRight_eq_self (t : Str) (h : ∀ ys c, t = ys ++ [c] → isWS c = false) :
    pyStripRight t = t := by
  cases List.eq_nil_or_concat t with
  | inl hnil =>
      rw [hnil]
      rfl
  | inr hcat =>
      obtain ⟨ys, c, hyc⟩ := hcat
      rw [List.concat_eq_append] at hyc
      have hc : isWS c = false := h ys c hyc
      unfold pyStripRight
      rw [hyc]
      rw [show (ys ++ [c]).reverse = c :: ys.reverse by simp]
      rw [List.dropWhile_cons, if_neg (by rw [hc]; intro hx; exact Bool.noConfusion hx)]
      simp

theorem stripPrefixCI_append_split (kw : Str) :
    ∀ (xs ys r : Str), kw.length ≤ xs.length → stripPrefixCI kw (xs ++ ys) = some r →
      ∃ t, stripPrefixCI kw xs = some t ∧ r = t ++ ys := by
  induction kw with
  | nil =>
      intro xs ys r _ h
      injection h with h2
      exact ⟨xs, rfl, h2.symm⟩
  | cons k kw2 ih =>
      intro xs ys r hlen h
      cases xs with
      | nil =>
          exfalso
          have : k :: kw2 = [] := List.eq_nil_of_length_eq_zero (Nat.le_zero.mp hlen)
          exact List.noConfusion this
      | cons x xs2 =>
          simp only [List.cons_append, stripPrefixCI] at h
          by_cases he : toLowerC k = toLowerC x
          · rw [if_pos he] at h
            obtain ⟨t, ht1, ht2⟩ := ih xs2 ys r (Nat.le_of_succ_le_succ hlen) h
            refine ⟨t, ?_, ht2⟩
            simp only [stripPrefixCI]
            rw [if_pos he]
            exact ht1
          · rw [if_neg he] at h
            exact Option.noConfusion h

theorem stripPrefixCI_ws_boundary (kw : Str) (hkw : ∀ k ∈ kw, ¬ toLowerC k = ' ') :
    ∀ (xs ys : Str), xs.length < kw.length →
      stripPrefixCI kw (xs ++ ' ' :: ys) = none := by
  induction kw with
  | nil =>
      intro xs ys hlen
      exact absurd hlen (Nat.not_lt_zero _)
  | cons k kw2 ih =>
      intro xs ys hlen
      cases xs with
      | nil =>
          simp only [List.nil_append, stripPrefixCI]
          rw [if_neg]
          intro he
          exact hkw k (List.mem_cons_self k kw2) (by rw [he]; rfl)
      | cons x xs2 =>
          simp only [List.cons_append, stripPrefixCI]
          by_cases he : toLowerC k = toLowerC x
          · rw [if_pos he]
            exact ih (fun a ha => hkw a (List.mem_cons_of_mem k ha)) xs2 ys
              (Nat.lt_of_succ_lt_succ hlen)
          · rw [if_neg he]

theorem badSig_at (c : Char) (post : Str) (hc : isWS c = true)
    (hdelim : startsCIReturnsDelim (post.dropWhile isWS) = true) :
    ∀ pre : Str, badSig (pre ++ c :: post) = true := by
  intro pre
  induction pre with
  | nil =>
      simp only [List.nil_append, badSig, hc, hdelim]
      rfl
  | cons a pre2 ih =>
      simp only [List.cons_append, badSig]
      have ih2 : badSig (pre2.append (c :: post)) = true := ih
      rw [ih2, Bool.or_true]

theorem parseCORF_corf (c : Char) (t : Str) (hc : isWS c = false) :
    parseCORF ("CREATE OR REPLACE FUNCTION ".data ++ c :: t)
      = matchSchema [] (c :: t) := by
  have h1 : parseCORF ("CREATE OR REPLACE FUNCTION ".data ++ c :: t)
      = tryWs (((' ' :: c :: t).takeWhile isWS).length) (' ' :: c :: t) := rfl
  rw [h1]
  have h2 : (' ' :: c :: t).takeWhile isWS = [' '] := by
    rw [List.takeWhile_cons, if_pos (by decide : isWS ' ' = true),
      List.takeWhile_cons, if_neg (by rw [hc]; intro hx; exact Bool.noConfusion hx)]
  rw [h2]
  show (match matchSchema [] ((' ' :: c :: t).drop 1) with
    | some r => some r
    | none => tryWs 0 (' ' :: c :: t)) = matchSchema [] (c :: t)
  cases hm : matchSchema [] ((' ' :: c :: t).drop 1) with
  | none =>
      have he : (' ' :: c :: t).drop 1 = c :: t := rfl
      rw [he] at hm
      rw [hm]
      rfl
  | some r =>
      have he : (' ' :: c :: t).drop 1 = c :: t := rfl
      rw [he] at hm
      rw [hm]

theorem matchSchema_through (sch : Str) (hsch : ∀ c ∈ sch, ¬ c = '.') :
    ∀ (acc T sig dd : Str), ¬ (acc.reverse ++ sch) = [] →
      matchSigDef [] T = some (sig, dd) →
      matchSchema acc (sch ++ '.' :: T) = some (acc.reverse ++ sch, sig, dd) := by
  induction sch with
  | nil =>
      intro acc T sig dd hne hm
      have hacc : ¬ acc = [] := by
        intro hx
        rw [hx] at hne
        exact hne rfl
      have haccE : ¬ acc.isEmpty = true := by
        intro hx
        exact hacc (List.isEmpty_iff.mp hx)
      simp only [List.nil_append, matchSchema]
      rw [if_pos (And.intro (by trivial) haccE), hm]
      simp
  | cons c sch2 ih =>
      intro acc T sig dd hne hm
      have hcd : ¬ c = '.' := hsch c (List.mem_cons_self c sch2)
      simp only [List.cons_append, matchSchema]
      rw [if_neg (by intro hx; exact hcd hx.1)]
      have hne2 : ¬ ((c :: acc).reverse ++ sch2) = [] := by
        rw [List.reverse_cons, List.append_assoc]
        intro hx
        cases List.append_eq_nil.mp hx with
        | intro h1 h2 => exact List.noConfusion (List.append_eq_nil.mp h2).1
      have hrec := ih (fun a ha => hsch a (List.mem_cons_of_mem c ha)) (c :: acc) T sig dd hne2 hm
      have hrec2 : matchSchema (c :: acc) (sch2.append ('.' :: T))
          = some ((c :: acc).reverse ++ sch2, sig, dd) := hrec
      rw [hrec2, List.reverse_cons, List.append_assoc]
      rfl

theorem trySplit_sep (rest : Str) (r0 : Char) (rest2 : Str) (hrest : rest = r0 :: rest2)
    (hr0 : isWS r0 = false) :
    trySplit (' ' :: ("returns ".data ++ rest)) = some rest := by
  subst hrest
  have key : (' ' :: r0 :: rest2).dropWhile isWS = r0 :: rest2 := by
    rw [List.dropWhile_cons, if_pos (by decide : isWS ' ' = true), List.dropWhile_cons,
      if_neg (by rw [hr0]; intro hx; exact Bool.noConfusion hx)]
  show (match (' ' :: r0 :: rest2).dropWhile isWS with
    | [] => none
    | e :: r4 => some (e :: r4)) = some (r0 :: rest2)
  rw [key]

/-- The non-greedy signature scan, run on the signature followed by the
serialized separator and definition, recovers exactly the signature and
the definition remainder, provided the signature does not end in
whitespace and contains no whitespace-delimited case-insensitive
`returns` word (end of signature counting as a delimiter). -/
theorem matchSigDef_roundtrip (sig rest : Str) (r0 : Char) (rest2 : Str)
    (hsig1 : ¬ sig = [])
    (hNTsig : ∀ ys c, sig = ys ++ [c] → isWS c = false)
    (hbad : badSig sig = false)
    (hrest : rest = r0 :: rest2) (hr0 : isWS r0 = false) :
    ∀ (todo done : Str), done.reverse ++ todo = sig →
      matchSigDef done (todo ++ ' ' :: ("returns ".data ++ rest)) = some (sig, rest) := by
  intro todo
  induction todo with
  | nil =>
      intro done hinv
      rw [List.append_nil] at hinv
      have hdone : ¬ done = [] := by
        intro hx
        rw [hx] at hinv
        exact hsig1 hinv.symm
      have hdoneE : done.isEmpty = false := by
        cases done with
        | nil => exact absurd rfl hdone
        | cons a as => rfl
      show matchSigDef done (' ' :: ("returns ".data ++ rest)) = some (sig, rest)
      simp only [matchSigDef]
      rw [if_neg (by rw [hdoneE]; intro hx; exact Bool.noConfusion hx)]
      rw [trySplit_sep rest r0 rest2 hrest hr0]
      rw [hinv]
  | cons c todo' ih =>
      intro done hinv
      show matchSigDef done ((c :: todo') ++ ' ' :: ("returns ".data ++ rest))
          = some (sig, rest)
      rw [List.cons_append]
      simp only [matchSigDef]
      have hinv2 : (c :: done).reverse ++ todo' = sig := by
        rw [List.reverse_cons, List.append_assoc]
        exact hinv
      by_cases hdone : done.isEmpty = true
      · rw [if_pos hdone]
        show matchSigDef (c :: done) (todo' ++ ' ' :: ("returns ".data ++ rest))
            = some (sig, rest)
        exact ih (c :: done) hinv2
      · rw [if_neg hdone]
        have htry : trySplit (c :: (todo' ++ ' ' :: ("returns ".data ++ rest))) = none := by
          by_cases hwc : isWS c = true
          · have hnotall : ¬ ∀ x ∈ todo', isWS x = true := by
              intro hall
              cases List.eq_nil_or_concat todo' with
              | inl hnil =>
                  have hs : sig = done.reverse ++ [c] := by
                    rw [← hinv, hnil]
                  have hx := hNTsig done.reverse c hs
                  rw [hx] at hwc
                  exact Bool.noConfusion hwc
              | inr hcat =>
                  obtain ⟨ys, d, hyd⟩ := hcat
                  rw [List.concat_eq_append] at hyd
                  have hmem : d ∈ todo' := by
                    rw [hyd]
                    simp
                  have hd : isWS d = true := hall d hmem
                  have hs : sig = (done.reverse ++ c :: ys) ++ [d] := by
                    rw [← hinv, hyd]
                    simp [List.append_assoc]
                  have hx := hNTsig _ d hs
                  rw [hx] at hd
                  exact Bool.noConfusion hd
            have hu : ¬ todo'.dropWhile isWS = [] := by
              intro he
              exact hnotall (List.dropWhile_eq_nil_iff.mp he)
            obtain ⟨u0, u1, hu01⟩ : ∃ u0 u1, todo'.dropWhile isWS = u0 :: u1 := by
              cases hx : todo'.dropWhile isWS with
              | nil => exact absurd hx hu
              | cons a b => exact ⟨a, b, rfl⟩
            have hdw : (c :: (todo' ++ ' ' :: ("returns ".data ++ rest))).dropWhile isWS
                = (u0 :: u1) ++ ' ' :: ("returns ".data ++ rest) := by
              rw [List.dropWhile_cons, if_pos hwc, List.dropWhile_append, hu01]
              rw [if_neg (by intro hx; exact Bool.noConfusion hx)]
            simp only [trySplit]
            rw [if_pos hwc, hdw]
            cases hsp : stripPrefixCI returnsKW
                ((u0 :: u1) ++ ' ' :: ("returns ".data ++ rest)) with
            | none => rfl
            | some r2 =>
                by_cases hlen : returnsKW.length ≤ (u0 :: u1).length
                · obtain ⟨t7, hst, hr2⟩ :=
                    stripPrefixCI_append_split returnsKW (u0 :: u1) _ r2 hlen hsp
                  cases t7 with
                  | nil =>
                      exfalso
                      have hdelim : startsCIReturnsDelim (todo'.dropWhile isWS) = true := by
                        rw [hu01]
                        unfold startsCIReturnsDelim
                        rw [hst]
                      have hbad2 := badSig_at c todo' hwc hdelim done.reverse
                      rw [hinv] at hbad2
                      rw [hbad2] at hbad
                      exact Bool.noConfusion hbad
                  | cons d tt =>
                      by_cases hwd : isWS d = true
                      · exfalso
                        have hdelim : startsCIReturnsDelim (todo'.dropWhile isWS) = true := by
                          rw [hu01]
                          unfold startsCIReturnsDelim
                          rw [hst]
                          exact hwd
                        have hbad2 := badSig_at c todo' hwc hdelim done.reverse
                        rw [hinv] at hbad2
                        rw [hbad2] at hbad
                        exact Bool.noConfusion hbad
                      · have hr2b : r2 = d :: (tt ++ ' ' :: ("returns ".data ++ rest)) := by
                          rw [hr2]
                          rfl
                        rw [hr2b]
                        show (if isWS d = true then
                            (match ((d :: (tt ++ ' ' :: ("returns ".data ++ rest))).dropWhile
                                isWS) with
                              | [] => none
                              | e :: r4 => some (e :: r4))
                          else none) = none
                        rw [if_neg hwd]
                · exfalso
                  have hlt : (u0 :: u1).length < returnsKW.length := Nat.lt_of_not_le hlen
                  have hnone := stripPrefixCI_ws_boundary returnsKW (by decide) (u0 :: u1)
                    ("returns ".data ++ rest) hlt
                  rw [hnone] at hsp
                  exact Option.noConfusion hsp
          · simp only [trySplit]
            rw [if_neg hwc]
        rw [htry]
        show matchSigDef (c :: done) (todo' ++ ' ' :: ("returns ".data ++ rest))
            = some (sig, rest)
        exact ih (c :: done) hinv2

/-- C10 counterexample: a PGFunction satisfying every stated hypothesis
of the round-trip claim (nonempty dot-free whitespace-free schema;
nonempty signature not containing the whitespace-delimited word
`returns`; definition `returns ` plus nonempty text) whose emitted
statement parses back to a different PGFunction — the signature's
trailing space is absorbed by the template's `\s+`. -/
theorem roundtrip_trailing_ws_counterexample :
    (¬ exSigTrail.schema = []
      ∧ (∀ c ∈ exSigTrail.schema, ¬ c = '.')
      ∧ (∀ c ∈ exSigTrail.schema, isWS c = false)
      ∧ ¬ exSigTrail.signature = []
      ∧ hasDelimWord ("returns".data) exSigTrail.signature = false
      ∧ ∃ rest, ¬ rest = [] ∧ exSigTrail.definition = "returns ".data ++ rest)
    ∧ ¬ from_sql (to_sql_statement_create_or_replace exSigTrail) = some exSigTrail := by
  refine ⟨⟨by decide, by decide, by decide, by decide, by decide, ⟨"x".data, by decide, by decide⟩⟩, by decide⟩

/-- C10 (amended): the parse/emit round trip is exact for every
PGFunction whose schema is nonempty with no dot and no whitespace, whose
signature is nonempty, does not end in whitespace, and contains no
whitespace-preceded case-insensitive word `returns` followed by
whitespace or the signature's end, and whose definition is `returns `
plus nonempty text that neither starts nor ends with whitespace. -/
theorem from_sql_roundtrip (f : PGFunction) (rest : Str)
    (hsch1 : ¬ f.schema = [])
    (hsch2 : ∀ c ∈ f.schema, ¬ c = '.')
    (hsch3 : ∀ c ∈ f.schema, isWS c = false)
    (hsig1 : ¬ f.signature = [])
    (hsig2 : ∀ ys c, f.signature = ys ++ [c] → isWS c = false)
    (hsig3 : badSig f.signature = false)
    (hdef : f.definition = "returns ".data ++ rest)
    (hr1 : ¬ rest = [])
    (hr2 : ∀ c l, rest = c :: l → isWS c = false)
    (hr3 : ∀ ys c, rest = ys ++ [c] → isWS c = false) :
    from_sql (to_sql_statement_create_or_replace f) = some f := by
  obtain ⟨r0, rest2, hrest⟩ : ∃ r0 rest2, rest = r0 :: rest2 := by
    cases hx : rest with
    | nil => exact absurd hx hr1
    | cons a b => exact ⟨a, b, rfl⟩
  have hr0 : isWS r0 = false := hr2 r0 rest2 hrest
  obtain ⟨s0, sch', hsch⟩ : ∃ s0 sch', f.schema = s0 :: sch' := by
    cases hx : f.schema with
    | nil => exact absurd hx hsch1
    | cons a b => exact ⟨a, b, rfl⟩
  have hs0 : isWS s0 = false := hsch3 s0 (by rw [hsch]; exact List.mem_cons_self s0 sch')
  unfold from_sql to_sql_statement_create_or_replace
  rw [hdef, hsch]
  have hstrip : pyStrip ("CREATE OR REPLACE FUNCTION ".data ++ (s0 :: sch')
      ++ '.' :: f.signature ++ ' ' :: ("returns ".data ++ rest))
      = "CREATE OR REPLACE FUNCTION ".data ++ (s0 :: sch')
      ++ '.' :: f.signature ++ ' ' :: ("returns ".data ++ rest) := by
    have hhead : ∀ c l, ("CREATE OR REPLACE FUNCTION ".data ++ (s0 :: sch')
        ++ '.' :: f.signature ++ ' ' :: ("returns ".data ++ rest)) = c :: l →
        isWS c = false := by
      intro c l hcl
      have hcl2 : 'C' :: ("REATE OR REPLACE FUNCTION ".data ++ ((s0 :: sch')
          ++ '.' :: f.signature ++ ' ' :: ("returns ".data ++ rest))) = c :: l := hcl
      injection hcl2 with h1 _
      rw [← h1]
      decide
    have htail : ∀ ys c, ("CREATE OR REPLACE FUNCTION ".data ++ (s0 :: sch')
        ++ '.' :: f.signature ++ ' ' :: ("returns ".data ++ rest)) = ys ++ [c] →
        isWS c = false := by
      obtain ⟨ys0, c0, hyc0⟩ : ∃ ys0 c0, rest = ys0 ++ [c0] := by
        cases List.eq_nil_or_concat rest with
        | inl hnil => exact absurd hnil hr1
        | inr hcat =>
            obtain ⟨ys0, c0, h⟩ := hcat
            rw [List.concat_eq_append] at h
            exact ⟨ys0, c0, h⟩
      have hc0 : isWS c0 = false := hr3 ys0 c0 hyc0
      have hSA : ("CREATE OR REPLACE FUNCTION ".data ++ (s0 :: sch')
          ++ '.' :: f.signature ++ ' ' :: ("returns ".data ++ rest))
          = ("CREATE OR REPLACE FUNCTION ".data ++ (s0 :: sch')
            ++ '.' :: f.signature ++ ' ' :: "returns ".data ++ ys0) ++ [c0] := by
        rw [hyc0]
        simp [List.append_assoc]
      intro ys c hcl
      have e1 : List.getLast? ("CREATE OR REPLACE FUNCTION ".data ++ (s0 :: sch')
          ++ '.' :: f.signature ++ ' ' :: ("returns ".data ++ rest)) = some c0 := by
        rw [hSA]
        exact List.getLast?_concat _
      have e2 : List.getLast? ("CREATE OR REPLACE FUNCTION ".data ++ (s0 :: sch')
          ++ '.' :: f.signature ++ ' ' :: ("returns ".data ++ rest)) = some c := by
        rw [hcl]
        exact List.getLast?_concat _
      rw [e1] at e2
      injection e2 with e3
      rw [e3] at hc0
      exact hc0
    unfold pyStrip
    rw [pyStripLeft_eq_self _ hhead, pyStripRight_eq_self _ htail]
  rw [hstrip]
  have hmsd : matchSigDef [] (f.signature ++ ' ' :: ("returns ".data ++ rest))
      = some (f.signature, rest) :=
    matchSigDef_roundtrip f.signature rest r0 rest2 hsig1 hsig2 hsig3 hrest hr0
      f.signature [] (by simp)
  have hsch2b : ∀ c ∈ (s0 :: sch'), ¬ c = '.' := by
    intro c hc
    apply hsch2
    rw [hsch]
    exact hc
  have hms : matchSchema [] ((s0 :: sch')
      ++ '.' :: (f.signature ++ ' ' :: ("returns ".data ++ rest)))
      = some ((s0 :: sch'), f.signature, rest) := by
    have h := matchSchema_through (s0 :: sch') hsch2b []
      (f.signature ++ ' ' :: ("returns ".data ++ rest)) f.signature rest
      (by intro hx; exact List.noConfusion hx) hmsd
    rw [h]
    rfl
  have hparse : parseCORF ("CREATE OR REPLACE FUNCTION ".data ++ (s0 :: sch')
      ++ '.' :: f.signature ++ ' ' :: ("returns ".data ++ rest))
      = some ((s0 :: sch'), f.signature, rest) := by
    have h1 : parseCORF ("CREATE OR REPLACE FUNCTION ".data
        ++ s0 :: (sch' ++ '.' :: (f.signature ++ ' ' :: ("returns ".data ++ rest))))
        = matchSchema [] (s0 :: (sch' ++ '.' :: (f.signature
            ++ ' ' :: ("returns ".data ++ rest)))) :=
      parseCORF_corf s0 (sch' ++ '.' :: (f.signature ++ ' ' :: ("returns ".data ++ rest))) hs0
    have h2 : matchSchema [] (s0 :: (sch' ++ '.' :: (f.signature
        ++ ' ' :: ("returns ".data ++ rest))))
        = some ((s0 :: sch'), f.signature, rest) := hms
    have hshape : ("CREATE OR REPLACE FUNCTION ".data ++ (s0 :: sch')
        ++ '.' :: f.signature ++ ' ' :: ("returns ".data ++ rest))
        = ("CREATE OR REPLACE FUNCTION ".data
          ++ s0 :: (sch' ++ '.' :: (f.signature ++ ' ' :: ("returns ".data ++ rest)))) := by
      simp [List.append_assoc]
    rw [hshape]
    exact h1.trans h2
  rw [hparse]
  have hfeq : (⟨s0 :: sch', f.signature, returnsSp ++ rest⟩ : PGFunction) = f := by
    cases f with
    | mk fs fg fd =>
        have hs2 : fs = s0 :: sch' := hsch
        have hd2 : fd = "returns ".data ++ rest := hdef
        rw [hs2, hd2]
        rfl
  show some (⟨s0 :: sch', f.signature, returnsSp ++ rest⟩ : PGFunction) = some f
  rw [hfeq]

theorem from_sql_roundtrip_witness :
    from_sql (to_sql_statement_create_or_replace exTarget) = some exTarget := by
  apply from_sql_roundtrip exTarget ("42".data)
  · decide
  · decide
  · decide
  · decide
  · intro ys c h
    have e1 : (exTarget.signature).getLast? = some c := by
      rw [h]
      exact List.getLast?_concat _
    have e2 : (exTarget.signature).getLast? = some ')' := by decide
    rw [e2] at e1
    injection e1 with e3
    rw [← e3]
    decide
  · decide
  · decide
  · decide
  · intro c l h
    have h2 : '4' :: "2".data = c :: l := h
    injection h2 with h3 _
    rw [← h3]
    decide
  · intro ys c h
    have e1 : ("42".data : Str).getLast? = some c := by
      rw [h]
      exact List.getLast?_concat _
    have e2 : ("42".data : Str).getLast? = some '2' := by decide
    rw [e2] at e1
    injection e1 with e3
    rw [← e3]
    decide

end AlembicUtils
